import Mathlib

/-!
Verification development for the fullrmc package (Reverse Monte Carlo
structural refinement).  The repository source under `src/` consists of the
package's top-level module: a long documentation string describing the
Engine, Group, GroupSelector, MoveGenerator and Constraint architecture,
followed by the single executable binding `__version__ = 1.0`.  The Engine
and constraint implementations themselves live outside the packaged source,
so the operational components below are modelled from the specification's
description of them; real numbers are modelled as rationals (exact
arithmetic stands in for floating point, so "within floating-point
tolerance" becomes equality).
-/

namespace Fullrmc

/-- Modelled from the spec: an atom coordinate is a triple of reals
(spec section 3, Configuration).  Reals are modelled as rationals. -/
abbrev Pt : Type := ℚ × ℚ × ℚ

/-- Modelled from the spec: a Configuration atom record
with elementType, coordinate and moleculeId (spec section 3). -/
structure AtomRecord where
  elementType : String
  coordinate : Pt
  moleculeId : ℕ
deriving DecidableEq, Inhabited

/-- Modelled from the spec: a Configuration is an ordered sequence of atom
records (spec section 3). -/
abbrev Configuration : Type := List AtomRecord

/-- Modelled from the spec: boundary conditions as an orthorhombic
(diagonal) lattice given by its three cell lengths; the spec's concrete
boundary tests use the unit cube instance.  (spec sections 3 and 4.1). -/
structure DiagLattice where
  Lx : ℚ
  Ly : ℚ
  Lz : ℚ
deriving DecidableEq

/-- The unit cube lattice used by the spec's concrete boundary tests. -/
def unitCube : DiagLattice := ⟨1, 1, 1⟩

/-- Modelled from the spec: wrap a fractional component into the interval
[-1/2, 1/2) (spec section 4.1, minimum-image convention).  `round` is the
nearest integer, with the half point rounding up, so `x - round x` lies in
[-1/2, 1/2). -/
def wrapFrac (x : ℚ) : ℚ := x - round x

/-- Modelled from the spec: squared minimum-image distance under the
lattice, obtained by converting each separation component to fractional
coordinates, wrapping into [-1/2, 1/2), and converting back to real space
(spec section 4.1).  The squared distance is used so the model stays in
exact rational arithmetic; the distance itself is its square root. -/
def minimum_image_distance_sq (lat : DiagLattice) (a b : Pt) : ℚ :=
  (lat.Lx * wrapFrac ((a.1 - b.1) / lat.Lx)) ^ 2
    + (lat.Ly * wrapFrac ((a.2.1 - b.2.1) / lat.Ly)) ^ 2
    + (lat.Lz * wrapFrac ((a.2.2 - b.2.2) / lat.Lz)) ^ 2

/-- Squared real-space distance between `a` and the periodic image of `b`
displaced by the integer lattice shift `k` (all periodic images of `b`
arise this way). -/
def image_distance_sq (lat : DiagLattice) (a b : Pt) (k : ℤ × ℤ × ℤ) : ℚ :=
  (a.1 - b.1 - (k.1 : ℚ) * lat.Lx) ^ 2
    + (a.2.1 - b.2.1 - (k.2.1 : ℚ) * lat.Ly) ^ 2
    + (a.2.2 - b.2.2 - (k.2.2 : ℚ) * lat.Lz) ^ 2

/-- Modelled from the spec: a Group carries its atom indices plus the
per-group move-generator assignment and enabled flag used by group
selection (spec sections 3, 4.2 and 4.3).  The generator itself is
irrelevant to the claims, so only its presence is recorded. -/
structure Group where
  indices : List ℕ
  hasGenerator : Bool
  enabled : Bool
deriving DecidableEq, Inhabited

/-- The Group invariant from the spec: indices are unique and every index
is a valid atom index of the current Configuration (spec section 3). -/
def groupInvariant (nAtoms : ℕ) (g : Group) : Prop :=
  g.indices.Nodup ∧ ∀ i ∈ g.indices, i < nAtoms

instance (nAtoms : ℕ) (g : Group) : Decidable (groupInvariant nAtoms g) :=
  inferInstanceAs (Decidable (_ ∧ _))

/-- Modelled from the spec: Group construction validates the invariant —
no index redundancy within one group and all indices valid — and refuses
the group otherwise (spec sections 3 and the package doc's Group entry).
A fresh group has no generator assigned yet. -/
def mkGroup (nAtoms : ℕ) (idxs : List ℕ) : Option Group :=
  if idxs.Nodup ∧ ∀ i ∈ idxs, i < nAtoms then
    some ⟨idxs, false, true⟩
  else
    none

/-- The moleculeId of atom `i` of the configuration (out-of-range indices
read the default record; they are never produced by the operations
below). -/
def atomMoleculeId (cfg : Configuration) (i : ℕ) : ℕ :=
  (cfg.getD i default).moleculeId

/-- Modelled from the spec: `reset_groups_as_molecules` regenerates the
whole group list, one group per molecule, each holding the indices of the
atoms of that molecule; per-group generator assignments are invalidated
and must be re-applied (spec section 4.2, and the tutorial in the package
doc). -/
def reset_groups_as_molecules (cfg : Configuration) : List Group :=
  ((cfg.map (·.moleculeId)).dedup).map fun m =>
    ⟨(List.range cfg.length).filter fun i => atomMoleculeId cfg i == m,
      false, true⟩

/-- Modelled from the spec: the unordered atom pairs of an `n`-atom
configuration, as ordered index pairs with the first strictly below the
second. -/
def atomPairs (n : ℕ) : Finset (Fin n × Fin n) :=
  Finset.univ.filter fun p => p.1 < p.2

/-- Modelled from the spec: a constraint's full initialize-style
recomputation — the committed scalar error built from scratch as the sum
of a per-pair contribution `c` over every atom pair (spec section 4.4,
`initialize`).  The concrete per-pair contribution (pair-distribution
shell weight, distance violation, ...) is constraint-specific and is kept
abstract. -/
def fullError {n : ℕ} (c : Pt → Pt → ℚ) (x : Fin n → Pt) : ℚ :=
  ∑ p ∈ atomPairs n, c (x p.1) (x p.2)

/-- The pairs whose contribution involves at least one atom of the moved
group `S`. -/
def groupPairs (n : ℕ) (S : Finset (Fin n)) : Finset (Fin n × Fin n) :=
  (atomPairs n).filter fun p => p.1 ∈ S ∨ p.2 ∈ S

/-- The part of the error carried by pairs involving the group `S`:
this is the only part `compute_after_move` recomputes. -/
def groupError {n : ℕ} (S : Finset (Fin n)) (c : Pt → Pt → ℚ)
    (x : Fin n → Pt) : ℚ :=
  ∑ p ∈ groupPairs n S, c (x p.1) (x p.2)

/-- The candidate coordinates: atoms in the moved group `S` take their new
positions, all other atoms keep their committed positions. -/
def moveCoords {n : ℕ} (S : Finset (Fin n)) (newPos x : Fin n → Pt) :
    Fin n → Pt :=
  fun i => if i ∈ S then newPos i else x i

/-- Modelled from the spec: `compute_after_move` recomputes only the
contributions involving the moved group against the rest of the unchanged
configuration, producing the scratch scalar error incrementally from the
committed error: subtract the group's old contributions, add its new ones
(spec section 4.4, `compute_after_move`). -/
def compute_after_move {n : ℕ} (committed : ℚ) (S : Finset (Fin n))
    (c : Pt → Pt → ℚ) (x newPos : Fin n → Pt) : ℚ :=
  committed - groupError S c x + groupError S c (moveCoords S newPos x)

/-- Modelled from the spec: the global acceptance test of the run loop —
accept unconditionally when the total scratch error does not exceed the
committed total error, otherwise accept when a uniform draw falls below a
Metropolis-like probability of the error increase; the exact probability
formula is left open by the spec (section 9) so it is abstracted as the
parameter `p` (spec section 4.5, step 3). -/
def acceptMove (p : ℚ → ℚ) (scratch committed draw : ℚ) : Bool :=
  if scratch ≤ committed then true
  else decide (draw < p (scratch - committed))

/-- Modelled from the spec: the Engine state owned across steps — the
Configuration coordinates, each used constraint's committed scalar error,
the selector/generator internal state, and the run counters
(spec sections 3 and 4.5). -/
structure EngineState where
  coords : List Pt
  committedErrors : List ℚ
  selectorState : ℕ
  accepted : ℕ
  rejected : ℕ
deriving DecidableEq

/-- Modelled from the spec: the per-step stochastic inputs — the candidate
coordinates produced by the selected group's move generator, and the
uniform random draw consumed by the acceptance test (spec section 4.5,
steps 1 and 3). -/
structure StepInput where
  newCoords : List Pt
  draw : ℚ
deriving DecidableEq

/-- Modelled from the spec: one trial step of the Engine run loop given
the candidate move.  Each used constraint (abstracted as its standard
error as a function of the candidate configuration) produces a scratch
error; the acceptance test compares total scratch against total committed
error.  On accept the candidate coordinates and the scratch errors are
committed and the accepted counter bumps; on reject scratch state is
discarded, the Configuration and committed state are untouched, and only
the rejected counter bumps (spec section 4.5, steps 2-5). -/
def engineStep (constraints : List (List Pt → ℚ)) (p : ℚ → ℚ)
    (s : EngineState) (inp : StepInput) : EngineState × Bool :=
  if acceptMove p (constraints.map fun f => f inp.newCoords).sum
      s.committedErrors.sum inp.draw then
    ({ coords := inp.newCoords
       committedErrors := constraints.map fun f => f inp.newCoords
       selectorState := s.selectorState
       accepted := s.accepted + 1
       rejected := s.rejected }, true)
  else
    ({ s with rejected := s.rejected + 1 }, false)

/-- Modelled from the spec: running the loop over a list of step inputs,
returning the final Engine state and the accept/reject trace
(spec section 4.5). -/
def engineRun (constraints : List (List Pt → ℚ)) (p : ℚ → ℚ) :
    EngineState → List StepInput → EngineState × List Bool
  | s, [] => (s, [])
  | s, inp :: rest =>
    let r := engineStep constraints p s inp
    let rest' := engineRun constraints p r.1 rest
    (rest'.1, r.2 :: rest'.2)

/-- The checkpoint layout version; incompatible layouts must fail fast
(spec section 6, checkpoint file). -/
def checkpointVersion : ℕ := 1

/-- Modelled from the spec: a checkpoint is a versioned persisted snapshot
of the Engine state sufficient to resume a run identically — full
Configuration, every constraint's committed state, counters and
selector/generator state (spec sections 4.5 step 6 and 6). -/
structure Checkpoint where
  version : ℕ
  coords : List Pt
  committedErrors : List ℚ
  selectorState : ℕ
  accepted : ℕ
  rejected : ℕ
deriving DecidableEq

/-- Persist a checkpoint of the Engine state. -/
def checkpoint (s : EngineState) : Checkpoint :=
  ⟨checkpointVersion, s.coords, s.committedErrors, s.selectorState,
    s.accepted, s.rejected⟩

/-- Resume an Engine from a checkpoint; an incompatible layout version
fails fast rather than silently corrupting state (spec section 6). -/
def resume (c : Checkpoint) : Option EngineState :=
  if c.version = checkpointVersion then
    some ⟨c.coords, c.committedErrors, c.selectorState, c.accepted,
      c.rejected⟩
  else none

/-- Modelled from the spec: the error taxonomy of section 7.  The spec
names the no-selectable-group error `NoSelectableGroupError` in section
4.3 and `SelectionExhaustedError` in section 7; they denote the same
condition and are modelled by the single constructor
`selectionExhaustedError`. -/
inductive RmcError
  | configurationError
  | definitionError
  | numericInstabilityError
  | selectionExhaustedError
deriving DecidableEq

/-- A lattice is degenerate when any cell length vanishes (the diagonal
transform is then singular). -/
def degenerateLattice (lat : DiagLattice) : Bool :=
  lat.Lx == 0 || lat.Ly == 0 || lat.Lz == 0

/-- Modelled from the spec: boundary conditions hold a validated
non-degenerate lattice, immutable once set (spec sections 3 and 4.1). -/
structure BoundaryConditions where
  lat : DiagLattice
deriving DecidableEq

/-- Modelled from the spec: `set_boundary_conditions` validates the
transform and rejects a degenerate lattice with a `ConfigurationError`
(spec sections 4.1 and 7). -/
def set_boundary_conditions (lat : DiagLattice) :
    Except RmcError BoundaryConditions :=
  if degenerateLattice lat then Except.error RmcError.configurationError
  else Except.ok ⟨lat⟩

/-- Whether a group is valid for the given configuration size. -/
def validGroup (nAtoms : ℕ) (g : Group) : Bool :=
  decide g.indices.Nodup && g.indices.all (· < nAtoms)

/-- Modelled from the spec: initializing a constraint that computes
inter-atomic distances.  It fails fast with a `ConfigurationError` when
boundary conditions are absent or a group holds invalid indices, and
otherwise builds the initial committed error from scratch over all atom
pairs using the minimum-image distance (spec sections 4.1, 4.4
`initialize`, and 7). -/
def initialize_distance_constraint (bc : Option BoundaryConditions)
    (cfg : Configuration) (groups : List Group) : Except RmcError ℚ :=
  match bc with
  | none => Except.error RmcError.configurationError
  | some b =>
    if groups.all fun g => validGroup cfg.length g then
      Except.ok (fullError
        (fun a b' => minimum_image_distance_sq b.lat a b')
        (fun i : Fin cfg.length => (cfg.get i).coordinate))
    else Except.error RmcError.configurationError

/-- A group can be selected when it is enabled and has a move generator
assigned (spec section 4.3). -/
def selectable (g : Group) : Bool := g.enabled && g.hasGenerator

/-- Modelled from the spec: group selection — choose among the selectable
groups (driven by the selector cursor), skipping groups that are disabled
or have no generator, and fail with the no-selectable-group error exactly
when no group is selectable (spec sections 4.3 and 7). -/
def selectGroup (groups : List Group) (cursor : ℕ) : Except RmcError ℕ :=
  match (List.range groups.length).filter
      (fun i => selectable (groups.getD i default)) with
  | [] => Except.error RmcError.selectionExhaustedError
  | a :: l => Except.ok ((a :: l).getD (cursor % (a :: l).length) 0)

/-- Modelled from the spec: a full run-loop step including the selection
phase; the only error the loop itself can surface is the fatal
no-selectable-group error (spec sections 4.5 and 7). -/
def engineRunStep (groups : List Group)
    (constraints : List (List Pt → ℚ)) (p : ℚ → ℚ)
    (s : EngineState) (inp : StepInput) :
    Except RmcError (EngineState × Bool) :=
  match selectGroup groups s.selectorState with
  | Except.error e => Except.error e
  | Except.ok _ => Except.ok (engineStep constraints p s inp)

/-- A value produced by executing a statement of the packaged module:
the source binds only floats, but strings and integers are included so
that the float binding is distinguishable from a string binding. -/
inductive PyValue
  | pyFloat : ℚ → PyValue
  | pyStr : String → PyValue
  | pyInt : ℤ → PyValue
deriving DecidableEq

/-- A top-level statement of the packaged module: the module docstring
(an expression statement that binds no name) or a name binding. -/
inductive PyStmt
  | docstring : String → PyStmt
  | assign : String → PyValue → PyStmt
deriving DecidableEq

/-- Executing one module-level statement extends the bindings: only an
assignment binds a name. -/
def execStmt (env : List (String × PyValue)) : PyStmt →
    List (String × PyValue)
  | PyStmt.docstring _ => env
  | PyStmt.assign n v => env ++ [(n, v)]

/-- The module body of src/\x5f\x5finit\x5f\x5f.py: the package docstring
(abridged here; its text plays no role) followed by the single executable
binding of line 204, assigning the float literal 1.0 to the name
surrounded by double underscores below. -/
def moduleBody : List PyStmt :=
  [PyStmt.docstring "Reverse Monte Carlo (RMC) ... package documentation",
   PyStmt.assign "__version__" (PyValue.pyFloat 1)]

/-- The bindings the module's executable code defines on import. -/
def moduleBindings : List (String × PyValue) :=
  moduleBody.foldl execStmt []

/-- A concrete two-atom, one-molecule configuration used by the witness
instantiations. -/
def sampleConfig : Configuration :=
  [⟨"A", (0, 0, 0), 0⟩, ⟨"B", (0, 0, 0), 0⟩]

/-- A concrete group list with every group disabled or generator-less,
used by the witness instantiations. -/
def sampleDisabledGroups : List Group :=
  [⟨[0], false, true⟩, ⟨[1], true, false⟩]

/-- C1: in the Engine run loop's acceptance test, any candidate whose
total scratch error is at most the committed total error is accepted
unconditionally, whatever the random draw and the Metropolis probability
function; in particular a candidate with strictly smaller total error is
always accepted (probability 1). -/
theorem accept_le_always_accepted (p : ℚ → ℚ)
    (scratch committed draw : ℚ) :
    (scratch ≤ committed → acceptMove p scratch committed draw = true) ∧
    (scratch < committed → acceptMove p scratch committed draw = true) := by
  constructor
  · intro h
    simp [acceptMove, h]
  · intro h
    simp [acceptMove, le_of_lt h]

/-- Witness for C1: a concrete strictly-improving trial is accepted even
under the constantly-zero acceptance probability. -/
theorem accept_le_always_accepted_witness :
    acceptMove (fun _ => 0) 1 2 (3 / 7) = true :=
  (accept_le_always_accepted (fun _ => 0) 1 2 (3 / 7)).2 (by norm_num)

/-- C3: a rejected trial leaves the Configuration, every constraint's
committed state and the accepted counter exactly as they were before the
trial; only the rejected counter changes. -/
theorem reject_changes_only_rejected_counter
    (constraints : List (List Pt → ℚ)) (p : ℚ → ℚ)
    (s : EngineState) (inp : StepInput)
    (h : (engineStep constraints p s inp).2 = false) :
    (engineStep constraints p s inp).1 =
      { s with rejected := s.rejected + 1 } := by
  unfold engineStep at h ⊢
  by_cases hc : acceptMove p
      ((constraints.map fun f => f inp.newCoords)).sum
      s.committedErrors.sum inp.draw = true
  · simp [hc] at h
  · simp [hc]

/-- Witness for C3: a concrete rejected step (scratch error 1 against
committed error 0, zero acceptance probability) changes only the rejected
counter. -/
theorem reject_changes_only_rejected_counter_witness :
    (engineStep [fun _ => 1] (fun _ => 0)
        ⟨[], [0], 0, 0, 0⟩ ⟨[], 5⟩).1 =
      { (⟨[], [0], 0, 0, 0⟩ : EngineState) with rejected := 0 + 1 } :=
  reject_changes_only_rejected_counter [fun _ => 1] (fun _ => 0)
    ⟨[], [0], 0, 0, 0⟩ ⟨[], 5⟩ (by norm_num [engineStep, acceptMove])

/-- C7: checkpoint/resume is a faithful round trip — resuming from a
checkpoint of the Engine and running any list of step inputs produces
exactly the accept/reject trace of the uninterrupted run from the
pre-checkpoint engine (the step inputs encode the random seed
sequence). -/
theorem checkpoint_resume_roundtrip (constraints : List (List Pt → ℚ))
    (p : ℚ → ℚ) (s : EngineState) (inputs : List StepInput) :
    (resume (checkpoint s)).map
        (fun s0 => (engineRun constraints p s0 inputs).2) =
      some ((engineRun constraints p s inputs).2) := rfl

/-- C9: with an empty constraint list (hence an empty committed-error
list) every generated move is accepted: the acceptance test succeeds with
probability 1, whatever the draw. -/
theorem empty_constraints_always_accept (p : ℚ → ℚ)
    (s : EngineState) (inp : StepInput) (h : s.committedErrors = []) :
    (engineStep [] p s inp).2 = true := by
  unfold engineStep
  simp [h, acceptMove]

/-- Witness for C9: a concrete constraint-free step is accepted. -/
theorem empty_constraints_always_accept_witness :
    (engineStep [] (fun _ => 0) ⟨[(0, 0, 0)], [], 0, 0, 0⟩
        ⟨[(1, 0, 0)], 9 / 10⟩).2 = true :=
  empty_constraints_always_accept (fun _ => 0)
    ⟨[(0, 0, 0)], [], 0, 0, 0⟩ ⟨[(1, 0, 0)], 9 / 10⟩ rfl

/-- Splitting the full error into the part carried by pairs touching the
moved group and the part carried by the untouched pairs. -/
theorem fullError_split {n : ℕ} (S : Finset (Fin n)) (c : Pt → Pt → ℚ)
    (x : Fin n → Pt) :
    fullError c x = groupError S c x +
      ∑ p ∈ (atomPairs n).filter (fun p => ¬(p.1 ∈ S ∨ p.2 ∈ S)),
        c (x p.1) (x p.2) := by
  rw [fullError, groupError, groupPairs]
  exact (Finset.sum_filter_add_sum_filter_not (atomPairs n)
    (fun p => p.1 ∈ S ∨ p.2 ∈ S) _).symm

/-- The contribution of the pairs not touching the moved group is the
same for any two coordinate assignments agreeing outside the group. -/
theorem offGroup_sum_congr {n : ℕ} (S : Finset (Fin n))
    (c : Pt → Pt → ℚ) (x y : Fin n → Pt)
    (h : ∀ i, i ∉ S → y i = x i) :
    ∑ p ∈ (atomPairs n).filter (fun p => ¬(p.1 ∈ S ∨ p.2 ∈ S)),
        c (y p.1) (y p.2)
      = ∑ p ∈ (atomPairs n).filter (fun p => ¬(p.1 ∈ S ∨ p.2 ∈ S)),
        c (x p.1) (x p.2) := by
  refine Finset.sum_congr rfl ?_
  intro p hp
  rw [Finset.mem_filter] at hp
  push_neg at hp
  rw [h p.1 hp.2.1, h p.2 hp.2.2]

/-- C2: the incremental compute_after_move/accept_move path never drifts
from the full initialize-style recomputation.  When the committed error is
the full recomputation on the committed coordinates, the scratch error
produced incrementally by `compute_after_move` equals the full
recomputation on the moved configuration (exactly, in the exact-rational
model of the reals); and on an accepted step the Engine's committed
per-constraint errors become exactly the scratch errors computed during
that step's trial. -/
theorem incremental_matches_full_recompute {n : ℕ} (committed : ℚ)
    (S : Finset (Fin n)) (c : Pt → Pt → ℚ) (x newPos : Fin n → Pt)
    (constraints : List (List Pt → ℚ)) (p : ℚ → ℚ)
    (s : EngineState) (inp : StepInput)
    (h : committed = fullError c x) :
    compute_after_move committed S c x newPos =
        fullError c (moveCoords S newPos x) ∧
      ((engineStep constraints p s inp).2 = true →
        (engineStep constraints p s inp).1.committedErrors =
          constraints.map fun f => f inp.newCoords) := by
  constructor
  · subst h
    rw [compute_after_move, fullError_split S c x,
      fullError_split S c (moveCoords S newPos x),
      offGroup_sum_congr S c x (moveCoords S newPos x)
        (fun i hi => by simp [moveCoords, hi])]
    ring
  · intro hacc
    unfold engineStep at hacc ⊢
    by_cases hc : acceptMove p
        ((constraints.map fun f => f inp.newCoords)).sum
        s.committedErrors.sum inp.draw = true
    · simp [hc]
    · simp [hc] at hacc

/-- Witness for C2: a concrete two-atom system, moving atom 1, with the
squared-coordinate-difference pair contribution. -/
theorem incremental_matches_full_recompute_witness :
    compute_after_move
        (fullError (fun a b => (a.1 - b.1) ^ 2)
          (fun _ : Fin 2 => ((0 : ℚ), (0 : ℚ), (0 : ℚ))))
        ({1} : Finset (Fin 2)) (fun a b => (a.1 - b.1) ^ 2)
        (fun _ => ((0 : ℚ), (0 : ℚ), (0 : ℚ)))
        (fun _ => ((1 : ℚ), (0 : ℚ), (0 : ℚ))) =
      fullError (fun a b => (a.1 - b.1) ^ 2)
        (moveCoords ({1} : Finset (Fin 2))
          (fun _ => ((1 : ℚ), (0 : ℚ), (0 : ℚ)))
          (fun _ => ((0 : ℚ), (0 : ℚ), (0 : ℚ)))) ∧
      ((engineStep [] (fun _ => 0) ⟨[], [], 0, 0, 0⟩ ⟨[], 0⟩).2 = true →
        (engineStep [] (fun _ => 0) ⟨[], [], 0, 0, 0⟩
            ⟨[], 0⟩).1.committedErrors =
          ([] : List (List Pt → ℚ)).map fun f => f []) :=
  incremental_matches_full_recompute _ _ _ _ _ [] (fun _ => 0)
    ⟨[], [], 0, 0, 0⟩ ⟨[], 0⟩ rfl

/-- Wrapping fixes zero. -/
theorem wrapFrac_zero : wrapFrac 0 = 0 := by
  simp [wrapFrac]

/-- Wrapping sends the fractional separation -1 (one full cell) to 0. -/
theorem wrapFrac_neg_one : wrapFrac (-1) = 0 := by
  norm_num [wrapFrac, round_eq]

/-- One component of the minimum-image bound: the wrapped real-space
separation component is (in square) no longer than the separation to any
integer lattice shift of that component. -/
theorem comp_wrap_min (L d : ℚ) (hL : 0 < L) (k : ℤ) :
    (L * wrapFrac (d / L)) ^ 2 ≤ (d - (k : ℚ) * L) ^ 2 := by
  have hL0 : L ≠ 0 := ne_of_gt hL
  have hd : d - (k : ℚ) * L = L * (d / L - (k : ℚ)) := by
    field_simp
    ring
  rw [hd, mul_pow, mul_pow]
  have habs : |d / L - round (d / L)| ≤ |d / L - (k : ℚ)| :=
    round_le (d / L) k
  have hsq : wrapFrac (d / L) ^ 2 ≤ (d / L - (k : ℚ)) ^ 2 := by
    rw [wrapFrac, ← sq_abs (d / L - round (d / L)),
      ← sq_abs (d / L - (k : ℚ))]
    exact pow_le_pow_left₀ (abs_nonneg _) habs 2
  exact mul_le_mul_of_nonneg_left hsq (sq_nonneg L)

/-- C4: the minimum-image distance computed by wrapping each fractional
separation component into [-1/2, 1/2) is shortest over all periodic
images; the distance between a point and its image displaced by exactly
one lattice vector is 0; and in the unit cube two points at fractional
separation (3/5, 0, 0) are at the wrapped distance of fractional
separation 2/5, not 3/5.  Stated on squared distances, which the
exact-rational model uses in place of the real square root. -/
theorem minimum_image_shortest (lat : DiagLattice) (a b : Pt)
    (hx : 0 < lat.Lx) (hy : 0 < lat.Ly) (hz : 0 < lat.Lz) :
    (∀ k : ℤ × ℤ × ℤ,
        minimum_image_distance_sq lat a b ≤ image_distance_sq lat a b k) ∧
      minimum_image_distance_sq lat a (a.1 + lat.Lx, a.2.1, a.2.2) = 0 ∧
      (minimum_image_distance_sq unitCube ((3 : ℚ) / 5, 0, 0) (0, 0, 0) =
          ((2 : ℚ) / 5) ^ 2 ∧
        minimum_image_distance_sq unitCube ((3 : ℚ) / 5, 0, 0) (0, 0, 0) ≠
          ((3 : ℚ) / 5) ^ 2) := by
  refine ⟨?_, ?_, ?_, ?_⟩
  · intro k
    unfold minimum_image_distance_sq image_distance_sq
    exact add_le_add (add_le_add
      (comp_wrap_min lat.Lx (a.1 - b.1) hx k.1)
      (comp_wrap_min lat.Ly (a.2.1 - b.2.1) hy k.2.1))
      (comp_wrap_min lat.Lz (a.2.2 - b.2.2) hz k.2.2)
  · have e1 : (a.1 - (a.1 + lat.Lx)) / lat.Lx = -1 := by
      rw [show a.1 - (a.1 + lat.Lx) = -lat.Lx by ring, neg_div,
        div_self (ne_of_gt hx)]
    show (lat.Lx * wrapFrac ((a.1 - (a.1 + lat.Lx)) / lat.Lx)) ^ 2
        + (lat.Ly * wrapFrac ((a.2.1 - a.2.1) / lat.Ly)) ^ 2
        + (lat.Lz * wrapFrac ((a.2.2 - a.2.2) / lat.Lz)) ^ 2 = 0
    rw [e1, wrapFrac_neg_one]
    simp [wrapFrac_zero]
  · norm_num [minimum_image_distance_sq, unitCube, wrapFrac, round_eq]
  · norm_num [minimum_image_distance_sq, unitCube, wrapFrac, round_eq]

/-- Witness for C4: the concrete unit-cube conclusions, obtained from the
theorem with the positivity hypotheses discharged on the unit cube. -/
theorem minimum_image_shortest_witness :
    minimum_image_distance_sq unitCube ((3 : ℚ) / 5, 0, 0) (0, 0, 0) =
        ((2 : ℚ) / 5) ^ 2 ∧
      minimum_image_distance_sq unitCube ((3 : ℚ) / 5, 0, 0) (0, 0, 0) ≠
        ((3 : ℚ) / 5) ^ 2 :=
  (minimum_image_shortest unitCube ((1 : ℚ) / 4, 0, 0) (0, 0, 0)
    (by norm_num [unitCube]) (by norm_num [unitCube])
    (by norm_num [unitCube])).2.2

/-- C5: every Group accepted at construction, and every group produced by
the wholesale group-reset operation `reset_groups_as_molecules`, satisfies
the Group invariant: its indices contain no duplicates and every index is
a valid atom index of the current Configuration.  (Groups are never
incrementally edited afterwards: no operation of the model mutates a
group's indices.) -/
theorem group_indices_valid_and_nodup (nAtoms : ℕ) (idxs : List ℕ)
    (g : Group) (cfg : Configuration) (g' : Group)
    (h1 : mkGroup nAtoms idxs = some g)
    (h2 : g' ∈ reset_groups_as_molecules cfg) :
    groupInvariant nAtoms g ∧ groupInvariant cfg.length g' := by
  constructor
  · unfold mkGroup at h1
    by_cases hcond : idxs.Nodup ∧ ∀ i ∈ idxs, i < nAtoms
    · rw [if_pos hcond] at h1
      injection h1 with h1
      subst h1
      exact hcond
    · rw [if_neg hcond] at h1
      exact absurd h1 (by simp)
  · unfold reset_groups_as_molecules at h2
    rw [List.mem_map] at h2
    obtain ⟨m, hm, rfl⟩ := h2
    refine ⟨(List.nodup_range cfg.length).filter _, ?_⟩
    intro i hi
    rw [List.mem_filter] at hi
    exact List.mem_range.mp hi.1

/-- Witness for C5: a concrete valid group construction and the group
produced by resetting a two-atom one-molecule configuration as
molecules. -/
theorem group_indices_valid_and_nodup_witness :
    groupInvariant 2 ⟨[0, 1], false, true⟩ ∧
      groupInvariant sampleConfig.length ⟨[0, 1], false, true⟩ :=
  group_indices_valid_and_nodup 2 [0, 1] ⟨[0, 1], false, true⟩
    sampleConfig ⟨[0, 1], false, true⟩ (by decide) (by decide)

/-- A selection failure can only be the no-selectable-group error. -/
theorem selectGroup_error_cases (groups : List Group) (cursor : ℕ)
    (e : RmcError) (h : selectGroup groups cursor = Except.error e) :
    e = RmcError.selectionExhaustedError := by
  unfold selectGroup at h
  split at h
  · injection h with h
    exact h.symm
  · exact absurd h (by simp)

/-- C6: initializing a distance-computing constraint with boundary
conditions absent fails with a `ConfigurationError` at setup time; a
degenerate lattice is likewise rejected with a `ConfigurationError` when
boundary conditions are set; and a run-loop step never surfaces a
`ConfigurationError` — the only error it can surface is the fatal
no-selectable-group error. -/
theorem configuration_error_only_at_setup :
    (∀ (cfg : Configuration) (groups : List Group),
        initialize_distance_constraint none cfg groups =
          Except.error RmcError.configurationError) ∧
      (∀ lat : DiagLattice, degenerateLattice lat = true →
        set_boundary_conditions lat =
          Except.error RmcError.configurationError) ∧
      (∀ (groups : List Group) (constraints : List (List Pt → ℚ))
          (p : ℚ → ℚ) (s : EngineState) (inp : StepInput),
        (∃ r, engineRunStep groups constraints p s inp = Except.ok r) ∨
          engineRunStep groups constraints p s inp =
            Except.error RmcError.selectionExhaustedError) := by
  refine ⟨fun cfg groups => rfl, fun lat h => ?_, ?_⟩
  · simp [set_boundary_conditions, h]
  · intro groups constraints p s inp
    cases hsel : selectGroup groups s.selectorState with
    | error e =>
      right
      have he : e = RmcError.selectionExhaustedError :=
        selectGroup_error_cases groups s.selectorState e hsel
      subst he
      unfold engineRunStep
      rw [hsel]
    | ok i =>
      left
      refine ⟨engineStep constraints p s inp, ?_⟩
      unfold engineRunStep
      rw [hsel]

/-- Witness for C6: a lattice with a vanishing cell length is concretely
rejected with a ConfigurationError. -/
theorem configuration_error_only_at_setup_witness :
    set_boundary_conditions ⟨0, 1, 1⟩ =
      Except.error RmcError.configurationError :=
  configuration_error_only_at_setup.2.1 ⟨0, 1, 1⟩ (by decide)

/-- The selection filter is empty exactly when no group of the list is
selectable. -/
theorem selection_filter_empty_iff (groups : List Group) :
    ((List.range groups.length).filter
        (fun i => selectable (groups.getD i default))) = [] ↔
      ∀ g ∈ groups, selectable g = false := by
  rw [List.filter_eq_nil_iff]
  constructor
  · intro h g hg
    obtain ⟨i, hlen, rfl⟩ := List.mem_iff_getElem.mp hg
    have hh := h i (List.mem_range.mpr hlen)
    rw [List.getD_eq_getElem groups default hlen] at hh
    simpa using hh
  · intro h i hi
    have hlen := List.mem_range.mp hi
    rw [List.getD_eq_getElem groups default hlen]
    simp [h groups[i] (List.getElem_mem hlen)]

/-- C8: group selection fails with the no-selectable-group error (named
NoSelectableGroupError in spec section 4.3 and SelectionExhaustedError in
spec section 7 — the same condition) exactly when every group of the list
is disabled or generator-less; and whenever selection succeeds, the
selected group is enabled and has a generator, so disabled and
generator-less groups are always skipped. -/
theorem no_selectable_group_error_iff (groups : List Group)
    (cursor : ℕ) :
    (selectGroup groups cursor =
        Except.error RmcError.selectionExhaustedError ↔
      ∀ g ∈ groups, selectable g = false) ∧
      (∀ j, selectGroup groups cursor = Except.ok j →
        selectable (groups.getD j default) = true) := by
  constructor
  · constructor
    · intro h
      rw [← selection_filter_empty_iff groups]
      cases hf : (List.range groups.length).filter
          (fun i => selectable (groups.getD i default)) with
      | nil => rfl
      | cons a l =>
        unfold selectGroup at h
        rw [hf] at h
        exact absurd h (by simp)
    · intro h
      unfold selectGroup
      rw [(selection_filter_empty_iff groups).mpr h]
  · intro j hok
    unfold selectGroup at hok
    cases hf : (List.range groups.length).filter
        (fun i => selectable (groups.getD i default)) with
    | nil =>
      rw [hf] at hok
      exact absurd hok (by simp)
    | cons a l =>
      rw [hf] at hok
      simp only [] at hok
      have hlt : cursor % (a :: l).length < (a :: l).length :=
        Nat.mod_lt _ (by simp)
      have hmem : (a :: l).getD (cursor % (a :: l).length) 0 ∈ a :: l := by
        rw [List.getD_eq_getElem _ _ hlt]
        exact List.getElem_mem hlt
      have hmem2 : (a :: l).getD (cursor % (a :: l).length) 0 ∈
          (List.range groups.length).filter
            (fun i => selectable (groups.getD i default)) := by
        rw [hf]
        exact hmem
      have hsel := (List.mem_filter.mp hmem2).2
      have hj : (a :: l).getD (cursor % (a :: l).length) 0 = j := by
        injection hok
      rw [← hj]
      simpa using hsel

/-- Witness for C8: a concrete group list whose groups are all disabled
or generator-less makes selection fail with the no-selectable-group
error. -/
theorem no_selectable_group_error_iff_witness :
    selectGroup sampleDisabledGroups 0 =
      Except.error RmcError.selectionExhaustedError :=
  (no_selectable_group_error_iff sampleDisabledGroups 0).1.mpr (by decide)

/-- C10: importing the package binds the module-level version attribute
to the floating-point number 1.0 — a float value, not the string "1.0" —
and this is the only binding the module's executable code defines. -/
theorem module_binds_only_version_float :
    moduleBindings = [("__version__", PyValue.pyFloat 1)] ∧
      PyValue.pyFloat 1 ≠ PyValue.pyStr "1.0" := by
  constructor
  · rfl
  · decide

end Fullrmc
